import Mathlib

/-!
Shallow embedding of `src/tools/simple_pipe.c`.

The program is a single relay loop (`main`): it repeatedly reads one
`struct input_event` (24 bytes on a 64-bit target) from stdin, logs a
diagnostic line to stderr, and writes the identical bytes to stdout,
handling EOF, EINTR, EPIPE, short reads and short writes exactly as the
C source does.

The environment (the kernel's responses to the `read` and `write`
calls) is modelled as a finite trace of I/O results.  Each `read` call
consumes one `ReadRes`, each `write` call one `WriteRes`.  A successful
write of `n` bytes appends the first `n` bytes of the requested buffer
to the output stream.  The interpreter `run` consumes the trace event
by event; when the trace is exhausted (or an event of the wrong kind
arrives) while the program still wants another I/O result, the run is
`blocked` in its current `Mode` - the residual state of the loop.
-/

/-- `sizeof(struct input_event)` on a 64-bit Linux target:
two 8-byte time fields, two 2-byte codes, one 4-byte value. -/
def event_size : Nat := 24

/-- Little-endian encoding of `n` into `k` bytes (each byte a `Nat < 256`). -/
def byteLE (k n : Nat) : List Nat := (List.range k).map (fun i => n / 256 ^ i % 256)

/-- Two's-complement unsigned view of a signed integer in `w` bits. -/
def toU (w : Nat) (i : Int) : Nat := (i % ((2 ^ w : Nat) : Int)).toNat

/-- `struct input_event`: timestamp (seconds, microseconds), 16-bit type,
16-bit code, 32-bit signed value. -/
structure Record where
  tv_sec : Int
  tv_usec : Int
  type : Nat
  code : Nat
  value : Int
deriving DecidableEq, Repr

/-- The byte image of a record as it sits in the buffer `ev`:
little-endian fields in declaration order. -/
def Record.bytes (r : Record) : List Nat :=
  byteLE 8 (toU 64 r.tv_sec) ++ byteLE 8 (toU 64 r.tv_usec) ++
  byteLE 2 (r.type % 2 ^ 16) ++ byteLE 2 (r.code % 2 ^ 16) ++
  byteLE 4 (toU 32 r.value)

/-- Result of one `read(STDIN_FILENO, &ev, event_size)` call:
`eof` is a 0 return, `ok r` a full `event_size`-byte read filling the
buffer with `r`, `short n` a return of `n` bytes with `0 < n <
event_size`, `eintr` a -1 return with `errno == EINTR`, `err` a -1
return with any other `errno`. -/
inductive ReadRes
  | eof
  | ok (r : Record)
  | short (n : Nat)
  | eintr
  | err
deriving DecidableEq, Repr

/-- Result of one `write(STDOUT_FILENO, buf, len)` call: `ok n` is a
return of `n >= 0` (the first `n` bytes of `buf` were transmitted),
`eintr` / `epipe` / `err` are -1 returns with `errno` equal to `EINTR`,
`EPIPE`, or anything else respectively (nothing transmitted). -/
inductive WriteRes
  | ok (n : Nat)
  | eintr
  | epipe
  | err
deriving DecidableEq, Repr

/-- One environment response: a read result or a write result. -/
inductive IOEvent
  | rd (res : ReadRes)
  | wr (res : WriteRes)
deriving DecidableEq, Repr

/-- One diagnostic line on stderr, one constructor per `fprintf`/`perror`
site in the source, carrying the data the line prints. -/
inductive Diag
  | readEvent (r : Record)
  | readErr
  | shortRead (n : Nat)
  | pipeBroken
  | pipeBrokenRetry
  | writeErr
  | writeErrRetry
  | shortWrite (n : Nat)
deriving DecidableEq, Repr

/-- Control state of the loop: `rd` at the top of the `while (1)` body
(about to `read`), `wr r` about to issue the initial `write` for record
`r`, `retry r total` inside the EINTR write-retry loop with
`total_written = total` bytes of `r` already transmitted. -/
inductive Mode
  | rd
  | wr (r : Record)
  | retry (r : Record) (total : Nat)
deriving DecidableEq, Repr

/-- How a run ends: `process exit(code)`, or `blocked m` - the trace was
exhausted (or held an event of the wrong kind) while the loop was still
running in state `m`, i.e. the program is still blocked in an I/O call. -/
inductive Outcome
  | exit (code : Nat)
  | blocked (m : Mode)
deriving DecidableEq, Repr

/-- Observable result of a run: bytes written to stdout, diagnostic
lines on stderr, and how the process ended. -/
structure RunResult where
  output : List Nat
  diags : List Diag
  outcome : Outcome
deriving DecidableEq, Repr

/-- Effect of one I/O result on the loop: continue in a new mode
(emitting bytes and diagnostics), exit the process, or `mism` when the
event is not of the kind the current mode consumes. -/
inductive Step
  | next (m : Mode) (out : List Nat) (ds : List Diag)
  | done (code : Nat) (out : List Nat) (ds : List Diag)
  | mism
deriving DecidableEq, Repr

/-- One step of `main`'s loop (`src/tools/simple_pipe.c`), branch by branch:

* mode `rd`, lines 15-36: 0 -> `break` (exit 0); EINTR -> `continue`;
  other error -> `perror` + exit 1; `0 < n < event_size` -> partial-read
  message + exit 1; full read -> log the event, go write it.
* mode `wr r`, lines 39-76: EPIPE -> message + `break` (exit 0);
  EINTR -> enter the retry loop with `total_written = 0`; other error ->
  `perror` + exit 1; `n < event_size` -> partial-write message + exit 1;
  else the record is forwarded, back to the top of the loop.
* mode `retry r total`, lines 50-65 (entered only with
  `total < event_size`, as in C where the loop guard
  `total_written < event_size` holds on entry): writing
  `event_size - total` bytes from offset `total`; EINTR -> retry;
  EPIPE -> message + `goto end_loop` (exit 0); other error -> `perror` +
  exit 1; `n` bytes written -> `total_written += n`, and when the guard
  `total_written < event_size` fails, `continue` the outer loop. -/
def step : Mode → IOEvent → Step
  | .rd, .rd res =>
    match res with
    | .eof => .done 0 [] []
    | .eintr => .next .rd [] []
    | .err => .done 1 [] [.readErr]
    | .short n => .done 1 [] [.shortRead n]
    | .ok r => .next (.wr r) [] [.readEvent r]
  | .wr r, .wr res =>
    match res with
    | .ok n =>
      if n < event_size then .done 1 (r.bytes.take n) [.shortWrite n]
      else .next .rd (r.bytes.take n) []
    | .eintr => .next (.retry r 0) [] []
    | .epipe => .done 0 [] [.pipeBroken]
    | .err => .done 1 [] [.writeErr]
  | .retry r total, .wr res =>
    match res with
    | .ok n =>
      if total + n < event_size then
        .next (.retry r (total + n)) ((r.bytes.drop total).take n) []
      else
        .next .rd ((r.bytes.drop total).take n) []
    | .eintr => .next (.retry r total) [] []
    | .epipe => .done 0 [] [.pipeBrokenRetry]
    | .err => .done 1 [] [.writeErrRetry]
  | .rd, .wr _ => .mism
  | .wr _, .rd _ => .mism
  | .retry _ _, .rd _ => .mism

/-- Run the loop from mode `m` against a finite trace of I/O results,
accumulating output bytes and diagnostics. -/
def run (m : Mode) : List IOEvent → RunResult
  | [] => ⟨[], [], .blocked m⟩
  | e :: evs =>
    match step m e with
    | .next m' out ds =>
      let res := run m' evs
      ⟨out ++ res.output, ds ++ res.diags, res.outcome⟩
    | .done c out ds => ⟨out, ds, .exit c⟩
    | .mism => ⟨[], [], .blocked m⟩

/-- The whole program: `main` starts at the top of the loop. -/
def simple_pipe_main (evs : List IOEvent) : RunResult := run .rd evs

/-- Fault-free per-record events: each record is read in full and
written in full in one call. -/
def cleanPrefix : List Record → List IOEvent
  | [] => []
  | r :: l => IOEvent.rd (.ok r) :: IOEvent.wr (.ok event_size) :: cleanPrefix l

/-- Fault-free trace for a record list: `cleanPrefix` and then the
input ends at the record boundary. -/
def cleanTrace (l : List Record) : List IOEvent :=
  cleanPrefix l ++ [IOEvent.rd .eof]

/-- Per-record events where every read and every initial write is first
interrupted by a signal: the read is retried identically, the write is
resumed through the retry loop and then completes in one call. -/
def intrPrefix : List Record → List IOEvent
  | [] => []
  | r :: l =>
    IOEvent.rd .eintr :: IOEvent.rd (.ok r) :: IOEvent.wr .eintr ::
      IOEvent.wr (.ok event_size) :: intrPrefix l

/-- `intrPrefix` followed by clean EOF. -/
def intrTrace (l : List Record) : List IOEvent :=
  intrPrefix l ++ [IOEvent.rd .eof]

example : simple_pipe_main [] = ⟨[], [], .blocked .rd⟩ := rfl
example : simple_pipe_main [.rd .eof] = ⟨[], [], .exit 0⟩ := rfl
example :
    simple_pipe_main [.rd (.ok ⟨1, 2, 3, 4, 5⟩), .wr (.ok 24), .rd .eof] =
      ⟨(Record.bytes ⟨1, 2, 3, 4, 5⟩).take 24,
       [.readEvent ⟨1, 2, 3, 4, 5⟩], .exit 0⟩ := by decide

/-! ### Basic facts about the byte image -/

theorem Record.bytes_length (r : Record) : r.bytes.length = event_size := by
  simp [Record.bytes, byteLE, event_size]

theorem Record.bytes_take (r : Record) : r.bytes.take event_size = r.bytes :=
  List.take_of_length_le (le_of_eq r.bytes_length)

theorem Record.bytes_drop_length (r : Record) (t : Nat) :
    (r.bytes.drop t).length = event_size - t := by
  simp [List.length_drop, r.bytes_length]

theorem Record.bytes_drop_take (r : Record) (t n : Nat) (h : event_size ≤ t + n) :
    (r.bytes.drop t).take n = r.bytes.drop t := by
  apply List.take_of_length_le
  rw [r.bytes_drop_length]
  omega

theorem Record.bytes_take_drop (r : Record) (t a : Nat) :
    (r.bytes.drop t).take a ++ r.bytes.drop (t + a) = r.bytes.drop t := by
  rw [← List.drop_drop, List.take_append_drop]

/-! ### The run over a fault-free prefix -/

theorem run_cleanPrefix (l : List Record) (evs : List IOEvent) :
    run .rd (cleanPrefix l ++ evs) =
      ⟨(l.map Record.bytes).flatten ++ (run .rd evs).output,
       l.map Diag.readEvent ++ (run .rd evs).diags,
       (run .rd evs).outcome⟩ := by
  induction l with
  | nil => simp [cleanPrefix]
  | cons r l ih =>
    simp [cleanPrefix, run, step, Record.bytes_take, ih, List.append_eq]

theorem run_intrPrefix (l : List Record) (evs : List IOEvent) :
    run .rd (intrPrefix l ++ evs) =
      ⟨(l.map Record.bytes).flatten ++ (run .rd evs).output,
       l.map Diag.readEvent ++ (run .rd evs).diags,
       (run .rd evs).outcome⟩ := by
  induction l with
  | nil => simp [intrPrefix]
  | cons r l ih =>
    simp [intrPrefix, run, step, Record.bytes_take, ih, List.append_eq]

/-! ### The claims -/

/-- Claim C1 (Fidelity): on a fault-free trace in which every one of the
`N` records is read in full and every write call transfers the full
`event_size` bytes, the bytes written to the output stream are exactly
the concatenation of the `N` records' byte images, in input order, and
the process then terminates with exit status 0. -/
theorem C1_fidelity (l : List Record) :
    (simple_pipe_main (cleanTrace l)).output = (l.map Record.bytes).flatten ∧
    (simple_pipe_main (cleanTrace l)).outcome = .exit 0 := by
  have h := run_cleanPrefix l [IOEvent.rd .eof]
  simp only [simple_pipe_main, cleanTrace, h]
  simp [run, step]

/-- An event the write-retry loop can receive that either fails with an
error the loop treats as terminal (a non-EINTR, i.e. non-interrupt,
write error or EPIPE) or transfers at least one byte. -/
def goodWr : IOEvent → Bool
  | .wr (.ok n) => decide (1 ≤ n)
  | .wr .epipe => true
  | .wr .err => true
  | _ => false

theorem run_rd_wr_blocked (evs : List IOEvent)
    (h : ∀ e ∈ evs, goodWr e = true) :
    (run .rd evs).outcome = .blocked .rd := by
  cases evs with
  | nil => rfl
  | cons e evs =>
    have he := h e (List.mem_cons_self e evs)
    cases e with
    | rd res => simp [goodWr] at he
    | wr res => simp [run, step]

theorem retry_exits (evs : List IOEvent) : ∀ (r : Record) (t : Nat),
    t < event_size → (∀ e ∈ evs, goodWr e = true) →
    event_size ≤ t + evs.length →
    ∀ r' t', (run (.retry r t) evs).outcome ≠ .blocked (.retry r' t') := by
  induction evs with
  | nil =>
    intro r t ht _ hlen
    simp only [List.length_nil, Nat.add_zero] at hlen
    omega
  | cons e evs ih =>
    intro r t ht hall hlen r' t'
    have he := hall e (List.mem_cons_self e evs)
    have hall' : ∀ e ∈ evs, goodWr e = true :=
      fun e hm => hall e (List.mem_cons_of_mem _ hm)
    cases e with
    | rd res => simp [goodWr] at he
    | wr res =>
      cases res with
      | ok n =>
        have hn : 1 ≤ n := by simpa [goodWr] using he
        by_cases hc : t + n < event_size
        · simp only [run, step, if_pos hc]
          exact ih r (t + n) hc hall'
            (by simp only [List.length_cons] at hlen; omega) r' t'
        · simp only [run, step, if_neg hc]
          rw [show ((⟨(r.bytes.drop t).take n ++ (run .rd evs).output,
              [] ++ (run .rd evs).diags, (run .rd evs).outcome⟩ : RunResult).outcome
              = (run .rd evs).outcome) from rfl]
          rw [run_rd_wr_blocked evs hall']
          intro hcontra
          exact Mode.noConfusion (Outcome.blocked.inj hcontra)
      | eintr => simp [goodWr] at he
      | epipe => simp [run, step]
      | err => simp [run, step]

/-- Claim C2 (Interrupted-write resumption): entering the scenario, an
initial write interrupted by a signal puts the loop into the retry
state at offset 0 (first conjunct).  From retry offset `k` (`k` bytes
of the record already transmitted), the remaining suffix of the record
has exactly `event_size - k` bytes (second conjunct); a resumed write
call is issued for exactly that suffix, and when it transfers those
`event_size - k` bytes the loop continues with the next record — the
output receives exactly the remaining bytes, not the whole record again
and not fewer (third conjunct); the same holds when the suffix is
transmitted in two chunks of `a` and `event_size - (k + a)` bytes, the
retry tracking the cumulative count (fourth conjunct). -/
theorem C2_interrupted_write_resumption (r : Record) (k a : Nat)
    (evs evs' evs'' : List IOEvent)
    (hk : k < event_size) (hka : k + a < event_size) :
    (run (.wr r) (IOEvent.wr .eintr :: evs) = run (.retry r 0) evs) ∧
    ((r.bytes.drop k).length = event_size - k) ∧
    (run (.retry r k) (IOEvent.wr (.ok (event_size - k)) :: evs') =
      ⟨r.bytes.drop k ++ (run .rd evs').output,
       (run .rd evs').diags, (run .rd evs').outcome⟩) ∧
    (run (.retry r k) (IOEvent.wr (.ok a) ::
        IOEvent.wr (.ok (event_size - (k + a))) :: evs'') =
      ⟨r.bytes.drop k ++ (run .rd evs'').output,
       (run .rd evs'').diags, (run .rd evs'').outcome⟩) := by
  refine ⟨by simp [run, step], r.bytes_drop_length k, ?_, ?_⟩
  · have hc : ¬ k + (event_size - k) < event_size := by omega
    simp [run, step, hc, r.bytes_drop_take k (event_size - k) (by omega)]
  · have hc : ¬ (k + a) + (event_size - (k + a)) < event_size := by omega
    simp only [run, step, if_pos hka, hc, if_false,
      r.bytes_drop_take (k + a) (event_size - (k + a)) (by omega)]
    have := r.bytes_take_drop k a
    cases hrun : run .rd evs'' with
    | mk out ds oc => simp [← List.append_assoc, this]

theorem C2_interrupted_write_resumption_witness :
    (run (.wr ⟨0, 0, 0, 0, 0⟩) [IOEvent.wr .eintr] = run (.retry ⟨0, 0, 0, 0, 0⟩ 0) []) ∧
    (((Record.bytes ⟨0, 0, 0, 0, 0⟩).drop 5).length = event_size - 5) ∧
    (run (.retry ⟨0, 0, 0, 0, 0⟩ 5) [IOEvent.wr (.ok (event_size - 5))] =
      ⟨(Record.bytes ⟨0, 0, 0, 0, 0⟩).drop 5 ++ (run .rd ([] : List IOEvent)).output,
       (run .rd ([] : List IOEvent)).diags, (run .rd ([] : List IOEvent)).outcome⟩) ∧
    (run (.retry ⟨0, 0, 0, 0, 0⟩ 5) [IOEvent.wr (.ok 7), IOEvent.wr (.ok (event_size - (5 + 7)))] =
      ⟨(Record.bytes ⟨0, 0, 0, 0, 0⟩).drop 5 ++ (run .rd ([] : List IOEvent)).output,
       (run .rd ([] : List IOEvent)).diags, (run .rd ([] : List IOEvent)).outcome⟩) :=
  C2_interrupted_write_resumption ⟨0, 0, 0, 0, 0⟩ 5 7 [] [] []
    (by decide) (by decide)

/-- Claim C3 (Broken-pipe tolerance): after `N` records forwarded
fault-free, if the next record's initial write reports EPIPE, the
program emits the broken-pipe note and exits with status 0 having
written exactly the first `N` records (first conjunct); if instead that
write is interrupted and a retried write reports EPIPE after `k <
event_size` bytes of the record went out, the program emits the
retry-path broken-pipe note and exits with status 0, the output holding
the `N` records plus only those `k` bounded bytes of the partially
attempted record (second conjunct).  Neither case is reported as an
error. -/
theorem C3_broken_pipe (l : List Record) (r : Record) (k : Nat)
    (rest rest' : List IOEvent) (hk : k < event_size) :
    (run .rd (cleanPrefix l ++ IOEvent.rd (.ok r) :: IOEvent.wr .epipe :: rest) =
      ⟨(l.map Record.bytes).flatten,
       l.map Diag.readEvent ++ [.readEvent r, .pipeBroken], .exit 0⟩) ∧
    (run .rd (cleanPrefix l ++ IOEvent.rd (.ok r) :: IOEvent.wr .eintr ::
        IOEvent.wr (.ok k) :: IOEvent.wr .epipe :: rest') =
      ⟨(l.map Record.bytes).flatten ++ r.bytes.take k,
       l.map Diag.readEvent ++ [.readEvent r, .pipeBrokenRetry], .exit 0⟩) := by
  constructor
  · have h := run_cleanPrefix l (IOEvent.rd (.ok r) :: IOEvent.wr .epipe :: rest)
    rw [h]
    simp [run, step]
  · have h := run_cleanPrefix l (IOEvent.rd (.ok r) :: IOEvent.wr .eintr ::
      IOEvent.wr (.ok k) :: IOEvent.wr .epipe :: rest')
    rw [h]
    simp [run, step, hk]

theorem C3_broken_pipe_witness :
    (run .rd (cleanPrefix [⟨1, 2, 3, 4, 5⟩] ++ IOEvent.rd (.ok ⟨6, 7, 8, 9, 10⟩) ::
        IOEvent.wr .epipe :: []) =
      ⟨([⟨1, 2, 3, 4, 5⟩].map Record.bytes).flatten,
       [⟨1, 2, 3, 4, 5⟩].map Diag.readEvent ++
         [.readEvent ⟨6, 7, 8, 9, 10⟩, .pipeBroken], .exit 0⟩) ∧
    (run .rd (cleanPrefix [⟨1, 2, 3, 4, 5⟩] ++ IOEvent.rd (.ok ⟨6, 7, 8, 9, 10⟩) ::
        IOEvent.wr .eintr :: IOEvent.wr (.ok 10) :: IOEvent.wr .epipe :: []) =
      ⟨([⟨1, 2, 3, 4, 5⟩].map Record.bytes).flatten ++
         (Record.bytes ⟨6, 7, 8, 9, 10⟩).take 10,
       [⟨1, 2, 3, 4, 5⟩].map Diag.readEvent ++
         [.readEvent ⟨6, 7, 8, 9, 10⟩, .pipeBrokenRetry], .exit 0⟩) :=
  C3_broken_pipe [⟨1, 2, 3, 4, 5⟩] ⟨6, 7, 8, 9, 10⟩ 10 [] [] (by decide)

/-- Claim C4 (Short non-interrupted write is fatal): if the write call
for a record returns a byte count `n < event_size` (a successful but
short transfer, hence not classified as interrupted), the program emits
the single partial-write diagnostic (after the record's log line) and
exits with status 1; the rest of the trace is never consumed, so no
retry is attempted. -/
theorem C4_short_write_fatal (r : Record) (n : Nat) (evs : List IOEvent)
    (h : n < event_size) :
    run .rd (IOEvent.rd (.ok r) :: IOEvent.wr (.ok n) :: evs) =
      ⟨r.bytes.take n, [.readEvent r, .shortWrite n], .exit 1⟩ := by
  simp [run, step, h]

theorem C4_short_write_fatal_witness :
    run .rd (IOEvent.rd (.ok ⟨1, 2, 3, 4, 5⟩) :: IOEvent.wr (.ok 23) ::
        [IOEvent.rd .eof]) =
      ⟨(Record.bytes ⟨1, 2, 3, 4, 5⟩).take 23,
       [.readEvent ⟨1, 2, 3, 4, 5⟩, .shortWrite 23], .exit 1⟩ :=
  C4_short_write_fatal ⟨1, 2, 3, 4, 5⟩ 23 [IOEvent.rd .eof] (by decide)

/-- Claim C5 (Corrupt short read is fatal): after any fault-free
prefix, a read returning `n` bytes with `0 < n < event_size` and no
interruption makes the program emit the partial-read diagnostic and
exit with status 1; the output stream holds exactly the previously
forwarded records — nothing further, and in particular no byte of the
partially read record, is forwarded (the rest of the trace is never
consumed). -/
theorem C5_short_read_fatal (l : List Record) (n : Nat) (evs : List IOEvent)
    (h0 : 0 < n) (h : n < event_size) :
    run .rd (cleanPrefix l ++ IOEvent.rd (.short n) :: evs) =
      ⟨(l.map Record.bytes).flatten,
       l.map Diag.readEvent ++ [.shortRead n], .exit 1⟩ := by
  rw [run_cleanPrefix l (IOEvent.rd (.short n) :: evs)]
  simp [run, step]

theorem C5_short_read_fatal_witness :
    run .rd (cleanPrefix [⟨1, 2, 3, 4, 5⟩] ++ IOEvent.rd (.short 11) ::
        [IOEvent.rd .eof]) =
      ⟨([⟨1, 2, 3, 4, 5⟩].map Record.bytes).flatten,
       [⟨1, 2, 3, 4, 5⟩].map Diag.readEvent ++ [.shortRead 11], .exit 1⟩ :=
  C5_short_read_fatal [⟨1, 2, 3, 4, 5⟩] 11 [IOEvent.rd .eof] (by decide) (by decide)

/-- Claim C6 (Clean EOF): a read returning zero bytes at a record
boundary, after any fault-free prefix of records and regardless of what
the rest of the trace would offer, terminates the loop: the process
exits with status 0 having forwarded every previously read record in
full, and reads or forwards nothing further (no partial record). -/
theorem C6_clean_eof (l : List Record) (rest : List IOEvent) :
    run .rd (cleanPrefix l ++ IOEvent.rd .eof :: rest) =
      ⟨(l.map Record.bytes).flatten, l.map Diag.readEvent, .exit 0⟩ := by
  rw [run_cleanPrefix l (IOEvent.rd .eof :: rest)]
  simp [run, step]

/-- Claim C7 (No skip or duplication under interruption): an
interrupted read is retried as the identical full-record request — the
run is the same as if the interruption had not happened (first
conjunct); an interrupted write inside the retry loop repeats the same
resumed request with the cumulative count unchanged (second conjunct);
end to end, on a trace where every record's read and initial write are
each interrupted once and then retried/resumed, the output is exactly
each record's bytes once, in order, with exit status 0 and no interrupt
surfaced as an error diagnostic (third conjunct). -/
theorem C7_no_skip_dup (r : Record) (t : Nat) (evs evs' : List IOEvent)
    (l : List Record) :
    (run .rd (IOEvent.rd .eintr :: evs) = run .rd evs) ∧
    (run (.retry r t) (IOEvent.wr .eintr :: evs') = run (.retry r t) evs') ∧
    (simple_pipe_main (intrTrace l) =
      ⟨(l.map Record.bytes).flatten, l.map Diag.readEvent, .exit 0⟩) := by
  refine ⟨by simp [run, step], by simp [run, step], ?_⟩
  have h := run_intrPrefix l [IOEvent.rd .eof]
  simp only [simple_pipe_main, intrTrace, h]
  simp [run, step]

/-- Claim C8 (Fatal-fault propagation): each fatal fault — a read error
other than interruption, a nonzero short read, an initial-write error
other than interruption or broken pipe, a short non-interrupted write,
and a write error other than interruption or broken pipe inside the
retry loop — terminates the loop immediately (the rest of the trace is
never consumed, so nothing is retried), produces exactly one diagnostic
line describing the failure, and exits with the non-zero status 1. -/
theorem C8_fatal_faults (r : Record) (n t : Nat)
    (evs1 evs2 evs3 evs4 evs5 : List IOEvent)
    (h0 : 0 < n) (h : n < event_size) :
    (run .rd (IOEvent.rd .err :: evs1) = ⟨[], [.readErr], .exit 1⟩) ∧
    (run .rd (IOEvent.rd (.short n) :: evs2) = ⟨[], [.shortRead n], .exit 1⟩) ∧
    (run (.wr r) (IOEvent.wr .err :: evs3) = ⟨[], [.writeErr], .exit 1⟩) ∧
    (run (.wr r) (IOEvent.wr (.ok n) :: evs4) =
      ⟨r.bytes.take n, [.shortWrite n], .exit 1⟩) ∧
    (run (.retry r t) (IOEvent.wr .err :: evs5) = ⟨[], [.writeErrRetry], .exit 1⟩) :=
  ⟨by simp [run, step], by simp [run, step], by simp [run, step],
   by simp [run, step, h], by simp [run, step]⟩

theorem C8_fatal_faults_witness :
    (run .rd (IOEvent.rd .err :: []) = ⟨[], [.readErr], .exit 1⟩) ∧
    (run .rd (IOEvent.rd (.short 3) :: []) = ⟨[], [.shortRead 3], .exit 1⟩) ∧
    (run (.wr ⟨1, 2, 3, 4, 5⟩) (IOEvent.wr .err :: []) = ⟨[], [.writeErr], .exit 1⟩) ∧
    (run (.wr ⟨1, 2, 3, 4, 5⟩) (IOEvent.wr (.ok 3) :: []) =
      ⟨(Record.bytes ⟨1, 2, 3, 4, 5⟩).take 3, [.shortWrite 3], .exit 1⟩) ∧
    (run (.retry ⟨1, 2, 3, 4, 5⟩ 7) (IOEvent.wr .err :: []) =
      ⟨[], [.writeErrRetry], .exit 1⟩) :=
  C8_fatal_faults ⟨1, 2, 3, 4, 5⟩ 3 7 [] [] [] [] [] (by decide) (by decide)

/-- Claim C9 (Per-record ordering and diagnostics): the step relation
processes each record strictly as read, then diagnostic log, then
output write (the read step alone emits the log line, before the write
step of the same record is consumed); consequently, on a fault-free run
of `N` records, exactly `N` diagnostic lines are emitted, one per
record, in record order, each carrying that record's timestamp, type,
sub-code and value, while the output holds the records' bytes in the
same order. -/
theorem C9_ordering_diagnostics (l : List Record) :
    (simple_pipe_main (cleanTrace l)).diags = l.map Diag.readEvent ∧
    (simple_pipe_main (cleanTrace l)).diags.length = l.length ∧
    (simple_pipe_main (cleanTrace l)).output = (l.map Record.bytes).flatten ∧
    (∀ r : Record, step .rd (IOEvent.rd (.ok r)) = .next (.wr r) [] [.readEvent r]) := by
  have h := run_cleanPrefix l [IOEvent.rd .eof]
  simp only [simple_pipe_main, cleanTrace, h]
  simp [run, step]

/-- Claim C10 (Write-retry loop termination): a write call inside the
retry loop returning zero bytes leaves the cumulative count unchanged
and repeats the same request — the run is identical to one without that
call, so a trace of zero-byte results never completes the record (first
conjunct); but if every write call either fails with an error the loop
treats as terminal (a non-interrupt error or broken pipe) or transfers
at least one byte, then within any such trace long enough to cover the
remaining bytes the retry loop is left: the run is never still blocked
inside the retry state at the end of the trace (second conjunct). -/
theorem C10_retry_termination (r : Record) (t : Nat) (evs evs' : List IOEvent)
    (ht : t < event_size) (hall : ∀ e ∈ evs', goodWr e = true)
    (hlen : event_size ≤ t + evs'.length) :
    (run (.retry r t) (IOEvent.wr (.ok 0) :: evs) = run (.retry r t) evs) ∧
    (∀ r' t', (run (.retry r t) evs').outcome ≠ .blocked (.retry r' t')) := by
  constructor
  · simp [run, step, ht]
  · exact retry_exits evs' r t ht hall hlen

theorem C10_retry_termination_witness :
    (run (.retry ⟨0, 0, 0, 0, 0⟩ 0) (IOEvent.wr (.ok 0) :: []) =
      run (.retry ⟨0, 0, 0, 0, 0⟩ 0) []) ∧
    ((run (.retry ⟨0, 0, 0, 0, 0⟩ 0)
        (List.replicate 24 (IOEvent.wr (.ok 1)))).outcome ≠
      .blocked (.retry ⟨0, 0, 0, 0, 0⟩ 0)) := by
  have h := C10_retry_termination ⟨0, 0, 0, 0, 0⟩ 0 []
    (List.replicate 24 (IOEvent.wr (.ok 1))) (by decide) (by decide) (by decide)
  exact ⟨h.1, h.2 ⟨0, 0, 0, 0, 0⟩ 0⟩
